import Mathlib

/-!
Verification of the concurrent cache subsystem of the i2b2 RxNorm/NDC
metadata builder (`rxnav_rest_api_mp.py`, `build_rxnorm_metadata.py`).

Modelling choices (shallow embedding):
* the cache file content is a `List Char` of the raw bytes; the file
  is opened with `io.open(..., encoding='utf-8')`, i.e. with
  `newline=None`, so reads use Python universal newlines: a line ends
  at `\n`, at a lone `\r`, or at `\r\n`, and the terminator is
  translated to `\n` in the returned string.  Positions are modelled
  as the byte offset of the next unread byte — the stream position the
  `tell()` cookie denotes — so a translated `\r\n` line advances the
  position by one more than the returned string's length; in the files
  the program itself writes (plain `\n` terminators) `tell()` is
  literally this byte offset;
* a Python file handle becomes an explicit cursor position plus the
  `at EOF` flag that the source tracks itself;
* the network boundary (`requests.get` inside the retry loop) becomes
  an oracle `Nat → Option (List Char)` giving the outcome of each
  successive attempt (`none` = `RequestException`, `some t` = response
  text `r.text`);
* the multiprocessing queue becomes the explicit list of messages the
  process has enqueued;
* `json.loads` is injective on the texts the cache stores, so results
  are represented by the raw response text that the source parses.
-/

/-- `chomp` from `rxnav_rest_api_mp.py`:
`s.rstrip('\n').rstrip('\r')` — strip all trailing newline characters,
then all trailing carriage returns. -/
def chomp (s : List Char) : List Char :=
  (((s.reverse).dropWhile (fun c => c = '\n')).dropWhile (fun c => c = '\r')).reverse

/-- Python `file.readline()` under universal newlines
(`io.open(..., newline=None)`): the next line with its terminator —
`\n`, a lone `\r`, or `\r\n`, each translated to a single `\n` in the
returned string — plus the remaining raw contents.  At end of file it
returns the empty string; a final line without a terminator is
returned as is. -/
def pyReadLine : List Char → List Char × List Char
  | [] => ([], [])
  | c :: cs =>
      if c = '\n' then (['\n'], cs)
      else if c = '\r' then
        match cs with
        | [] => (['\n'], [])
        | c2 :: rest => if c2 = '\n' then (['\n'], rest) else (['\n'], c2 :: rest)
      else ((c :: (pyReadLine cs).1), (pyReadLine cs).2)

theorem pyReadLine_ne_nil : ∀ cs : List Char, cs ≠ [] → (pyReadLine cs).1 ≠ []
  | [], h => absurd rfl h
  | c :: cs, _ => by
      by_cases h1 : c = '\n'
      · simp [pyReadLine, h1]
      · by_cases h2 : c = '\r'
        · cases cs with
          | nil => simp [pyReadLine, h1, h2]
          | cons c2 rest =>
              by_cases h3 : c2 = '\n' <;> simp [pyReadLine, h1, h2, h3]
        · simp [pyReadLine, h1, h2]

theorem pyReadLine_snd_le : ∀ cs : List Char, (pyReadLine cs).2.length ≤ cs.length
  | [] => Nat.le_refl _
  | c :: cs => by
      by_cases h1 : c = '\n'
      · simp [pyReadLine, h1]
      · by_cases h2 : c = '\r'
        · cases cs with
          | nil => simp [pyReadLine, h1, h2]
          | cons c2 rest =>
              by_cases h3 : c2 = '\n' <;> simp [pyReadLine, h1, h2, h3]
              omega
        · have := pyReadLine_snd_le cs
          simp only [pyReadLine, if_neg h1, if_neg h2, List.length_cons]
          omega

theorem pyReadLine_snd_lt (cs : List Char) (h : cs ≠ []) :
    (pyReadLine cs).2.length < cs.length := by
  cases cs with
  | nil => exact absurd rfl h
  | cons c cs =>
      by_cases h1 : c = '\n'
      · simp [pyReadLine, h1]
      · by_cases h2 : c = '\r'
        · cases cs with
          | nil => simp [pyReadLine, h1, h2]
          | cons c2 rest =>
              by_cases h3 : c2 = '\n' <;> simp [pyReadLine, h1, h2, h3]
              omega
        · have := pyReadLine_snd_le cs
          simp only [pyReadLine, if_neg h1, if_neg h2, List.length_cons]
          omega

/-- Reading a line from a buffer that starts with a complete
newline-terminated line free of `\r` returns exactly that line. -/
theorem pyReadLine_newline : ∀ (a rest : List Char), '\n' ∉ a → '\r' ∉ a →
    pyReadLine (a ++ '\n' :: rest) = (a ++ ['\n'], rest)
  | [], rest, _, _ => by simp [pyReadLine]
  | c :: a, rest, hn, hr => by
      have hc : ¬ c = '\n' := fun h => hn (by simp [h])
      have hc2 : ¬ c = '\r' := fun h => hr (by simp [h])
      have hn2 : '\n' ∉ a := fun h => hn (by simp [h])
      have hr2 : '\r' ∉ a := fun h => hr (by simp [h])
      simp [pyReadLine, hc, hc2, pyReadLine_newline a rest hn2 hr2]

/-- Fueled iteration of `pyReadLine`, splitting a whole buffer into
its Python lines, each paired with the number of raw bytes the read
consumed (which is what `tell()` advances by — one more than the
returned string's length for a `\r\n` terminator).  `pyLinesPos`
below always supplies sufficient fuel. -/
def pyLinesPosF : Nat → List Char → List (List Char × Nat)
  | 0, _ => []
  | _ + 1, [] => []
  | fuel + 1, c :: cs =>
      ((pyReadLine (c :: cs)).1, (c :: cs).length - (pyReadLine (c :: cs)).2.length)
        :: pyLinesPosF fuel (pyReadLine (c :: cs)).2

/-- The Python lines of a buffer with their consumed byte counts:
repeated `readline` until the empty string is returned. -/
def pyLinesPos (cs : List Char) : List (List Char × Nat) :=
  pyLinesPosF (cs.length + 1) cs

/-- Just the Python lines of a buffer (universal newlines). -/
def pyLines (cs : List Char) : List (List Char) :=
  (pyLinesPos cs).map Prod.fst

theorem pyLinesPosF_fuel : ∀ (f₁ f₂ : Nat) (cs : List Char),
    cs.length < f₁ → cs.length < f₂ → pyLinesPosF f₁ cs = pyLinesPosF f₂ cs
  | 0, _, cs, h₁, _ => absurd h₁ (by omega)
  | _ + 1, 0, cs, _, h₂ => absurd h₂ (by omega)
  | _ + 1, _ + 1, [], _, _ => rfl
  | f₁ + 1, f₂ + 1, c :: cs, h₁, h₂ => by
      have hlt := pyReadLine_snd_lt (c :: cs) (by simp)
      have hlen : (c :: cs).length = cs.length + 1 := rfl
      have hr₁ : (pyReadLine (c :: cs)).2.length < f₁ := by
        simp at h₁; omega
      have hr₂ : (pyReadLine (c :: cs)).2.length < f₂ := by
        simp at h₂; omega
      simp [pyLinesPosF, pyLinesPosF_fuel f₁ f₂ _ hr₁ hr₂]

theorem pyLinesPos_nil : pyLinesPos [] = [] := rfl

theorem pyLinesPos_cons (cs : List Char) (h : cs ≠ []) :
    pyLinesPos cs = ((pyReadLine cs).1, cs.length - (pyReadLine cs).2.length)
      :: pyLinesPos (pyReadLine cs).2 := by
  cases cs with
  | nil => exact absurd rfl h
  | cons c cs =>
      show pyLinesPosF (cs.length + 1 + 1) (c :: cs) = _
      have hlt := pyReadLine_snd_lt (c :: cs) (by simp)
      simp only [pyLinesPosF]
      congr 1
      exact pyLinesPosF_fuel _ _ _ (by simp at hlt ⊢; omega) (by omega)

/-- The in-memory cache index: Python dict `url ↦ (file position, data
date)`, modelled as an association list with in-place overwrite on
re-insertion (so insertion order is preserved, as in a Python dict). -/
abbrev CacheDict := List (List Char × (Nat × List Char))

def dictInsert : CacheDict → List Char → Nat × List Char → CacheDict
  | [], k, v => [(k, v)]
  | (k', v') :: rest, k, v =>
      if k' = k then (k, v) :: rest else (k', v') :: dictInsert rest k v

def dictGet : CacheDict → List Char → Option (Nat × List Char)
  | [], _ => none
  | (k', v') :: rest, k => if k' = k then some v' else dictGet rest k

theorem dictGet_insert_self : ∀ (d : CacheDict) (k : List Char) (v : Nat × List Char),
    dictGet (dictInsert d k v) k = some v
  | [], k, v => by simp [dictInsert, dictGet]
  | (k', v') :: rest, k, v => by
      by_cases h : k' = k
      · simp [dictInsert, dictGet, h]
      · simp [dictInsert, dictGet, h, dictGet_insert_self rest k v]

theorem dictGet_insert_ne : ∀ (d : CacheDict) (k k₂ : List Char) (v : Nat × List Char),
    k₂ ≠ k → dictGet (dictInsert d k v) k₂ = dictGet d k₂
  | [], k, k₂, v, h => by
      have h2 : ¬ k = k₂ := fun hc => h hc.symm
      simp [dictInsert, dictGet, h2]
  | (k', v') :: rest, k, k₂, v, h => by
      have h2 : ¬ k = k₂ := fun hc => h hc.symm
      by_cases hk : k' = k
      · subst hk
        simp [dictInsert, dictGet, h2]
      · by_cases hk₂ : k' = k₂
        · subst hk₂
          simp [dictInsert, dictGet, hk]
        · simp [dictInsert, dictGet, hk, hk₂, dictGet_insert_ne rest k k₂ v h]

/-- Line-level view of the scan in `load_existing_cache`
(`rxnav_rest_api_mp.py`, constructor): consume whole groups of three
lines — each line paired with its consumed byte count — checking that
the chomped date line has exactly 8 characters, and record
`chomp(key line) ↦ (start byte offset, chomp(date line))`.
A final group of 1 or 2 leftover lines is the format error. -/
def linesLoad : List (List Char × Nat) → Nat → CacheDict → Option CacheDict
  | [], _, d => some d
  | [_], _, _ => none
  | [_, _], _, _ => none
  | (l1, b1) :: (l2, b2) :: (_, b3) :: rest, pos, d =>
      if (chomp l2).length = 8 then
        linesLoad rest (pos + (b1 + b2 + b3))
          (dictInsert d (chomp l1) (pos, chomp l2))
      else none

/-- Whether a list of lines decomposes into whole three-line groups
whose chomped date lines have exactly 8 characters. -/
def groupsOk : List (List Char × Nat) → Bool
  | [] => true
  | _ :: (l2, _) :: _ :: rest => (decide ((chomp l2).length = 8)) && groupsOk rest
  | _ => false

theorem linesLoad_isSome : ∀ (ls : List (List Char × Nat)) (pos : Nat) (d : CacheDict),
    (linesLoad ls pos d).isSome = groupsOk ls
  | [], _, _ => rfl
  | [_], _, _ => rfl
  | [_, _], _, _ => rfl
  | (l1, b1) :: (l2, b2) :: (l3, b3) :: rest, pos, d => by
      by_cases h : (chomp l2).length = 8
      · simp [linesLoad, groupsOk, h, linesLoad_isSome rest _ _]
      · simp [linesLoad, groupsOk, h]

theorem groupsOk_length_dvd : ∀ ls : List (List Char × Nat),
    groupsOk ls = true → 3 ∣ ls.length
  | [], _ => ⟨0, rfl⟩
  | [_], h => by simp [groupsOk] at h
  | [_, _], h => by simp [groupsOk] at h
  | _ :: _ :: _ :: rest, h => by
      have hr : groupsOk rest = true := by
        simp [groupsOk] at h; exact h.2
      obtain ⟨c, hc⟩ := groupsOk_length_dvd rest hr
      exact ⟨c + 1, by simp [hc]; ring⟩

/-- The loop body of `load_existing_cache` (`rxnav_rest_api_mp.py`
lines 93–112), faithfully: read three lines, drop the empty strings
returned at end of file, stop cleanly when all three are empty, fail
when only one or two lines remain, fail when the chomped date line is
not 8 characters, otherwise record
`chomp(url line) ↦ (file position of the entry, chomp(date line))`
and continue.  The position is `f.tell()`, i.e. it advances by the
raw bytes consumed, not by the lengths of the translated lines.  The
first argument is termination fuel; the iteration count is bounded by
the buffer length, so `load_existing_cache` below always supplies
enough. -/
def loadCacheLoop : Nat → List Char → Nat → CacheDict → Option CacheDict
  | 0, _, _, _ => none
  | fuel + 1, cs, pos, d =>
      let l1 := (pyReadLine cs).1
      let r1 := (pyReadLine cs).2
      let l2 := (pyReadLine r1).1
      let r2 := (pyReadLine r1).2
      let l3 := (pyReadLine r2).1
      let r3 := (pyReadLine r2).2
      let rawlines := [l1, l2, l3].filter (fun x => ¬ x = [])
      if rawlines.length = 0 then some d
      else if ¬ rawlines.length = 3 then none
      else if ¬ (chomp l2).length = 8 then none
      else loadCacheLoop fuel r3 (pos + (cs.length - r3.length))
        (dictInsert d (chomp l1) (pos, chomp l2))

/-- `load_existing_cache` from the `rxnav_rest_api_mp` constructor:
scan the whole cache file from offset 0 and build the index, or fail
(`ValueError`, modelled as `none`) on a trailing partial group or a
malformed date line. -/
def load_existing_cache (cs : List Char) : Option CacheDict :=
  loadCacheLoop (cs.length + 1) cs 0 []

theorem loadCacheLoop_eq_linesLoad :
    ∀ (fuel : Nat) (cs : List Char) (pos : Nat) (d : CacheDict),
    cs.length < fuel → loadCacheLoop fuel cs pos d = linesLoad (pyLinesPos cs) pos d
  | 0, cs, _, _, h => absurd h (by omega)
  | fuel + 1, cs, pos, d, h => by
      by_cases hcs : cs = []
      · subst hcs
        simp [loadCacheLoop, pyReadLine, pyLinesPos_nil, linesLoad]
      · have h1ne := pyReadLine_ne_nil cs hcs
        have h1le := pyReadLine_snd_le cs
        have h1lt := pyReadLine_snd_lt cs hcs
        by_cases hr1 : (pyReadLine cs).2 = []
        · -- only one line in the buffer: format error
          rw [pyLinesPos_cons cs hcs, hr1, pyLinesPos_nil]
          simp [loadCacheLoop, hr1, pyReadLine, h1ne, linesLoad]
        · have h2ne := pyReadLine_ne_nil _ hr1
          have h2le := pyReadLine_snd_le (pyReadLine cs).2
          have h2lt := pyReadLine_snd_lt _ hr1
          by_cases hr2 : (pyReadLine (pyReadLine cs).2).2 = []
          · -- exactly two lines in the buffer: format error
            rw [pyLinesPos_cons cs hcs, pyLinesPos_cons _ hr1, hr2, pyLinesPos_nil]
            simp [loadCacheLoop, hr2, pyReadLine, h1ne, h2ne, linesLoad]
          · have h3ne := pyReadLine_ne_nil _ hr2
            have h3le := pyReadLine_snd_le (pyReadLine (pyReadLine cs).2).2
            have h3lt := pyReadLine_snd_lt _ hr2
            rw [pyLinesPos_cons cs hcs, pyLinesPos_cons _ hr1, pyLinesPos_cons _ hr2]
            have hrec := loadCacheLoop_eq_linesLoad fuel
              (pyReadLine (pyReadLine (pyReadLine cs).2).2).2
              (pos + (cs.length - (pyReadLine (pyReadLine (pyReadLine cs).2).2).2.length))
              (dictInsert d (chomp (pyReadLine cs).1)
                (pos, chomp (pyReadLine (pyReadLine cs).2).1))
              (by omega)
            have hpos : pos + (cs.length - (pyReadLine cs).2.length
                + ((pyReadLine cs).2.length - (pyReadLine (pyReadLine cs).2).2.length)
                + ((pyReadLine (pyReadLine cs).2).2.length
                  - (pyReadLine (pyReadLine (pyReadLine cs).2).2).2.length))
                = pos + (cs.length
                  - (pyReadLine (pyReadLine (pyReadLine cs).2).2).2.length) := by
              omega
            by_cases hdate : (chomp (pyReadLine (pyReadLine cs).2).1).length = 8
            · simp [loadCacheLoop, h1ne, h2ne, h3ne, hdate, linesLoad, hrec, hpos]
            · simp [loadCacheLoop, h1ne, h2ne, h3ne, hdate, linesLoad]

/-- The three-line cache record as written by `write_cache_entry`:
`print(url+'\n'+date+'\n'+json_string, file=...)`, and `print` appends
one more newline, giving `url\n date\n json\n`. -/
def mkRecord (k d p : List Char) : List Char :=
  k ++ '\n' :: (d ++ '\n' :: (p ++ ['\n']))

/-- Concatenation of whole records, the shape of a well-formed cache
file. -/
def joinRecords : List (List Char × List Char × List Char) → List Char
  | [] => []
  | (k, d, p) :: rest => mkRecord k d p ++ joinRecords rest

/-- The Python lines of a list of whole records, with their byte
counts: record fields contain no `\r`, so each line's byte count is
its length. -/
def recordLines : List (List Char × List Char × List Char) → List (List Char × Nat)
  | [] => []
  | (k, d, p) :: rest =>
      (k ++ ['\n'], (k ++ ['\n']).length) :: (d ++ ['\n'], (d ++ ['\n']).length)
        :: (p ++ ['\n'], (p ++ ['\n']).length) :: recordLines rest

/-- A string that survives the record round trip as one line: it
contains no newline and no carriage return, so under universal
newlines it is written and read back as a single line and `chomp`
gives it back unchanged. -/
def lineOk (x : List Char) : Prop :=
  '\n' ∉ x ∧ '\r' ∉ x

/-- A record whose three fields are single lines and whose date field
has the 8 characters `load_existing_cache` requires. -/
def recOk : List Char × List Char × List Char → Prop
  | (k, d, p) => lineOk k ∧ (lineOk d ∧ d.length = 8) ∧ lineOk p

instance (x : List Char) : Decidable (lineOk x) := by
  unfold lineOk; infer_instance

instance (r : List Char × List Char × List Char) : Decidable (recOk r) := by
  obtain ⟨k, d, p⟩ := r
  unfold recOk; infer_instance

theorem chomp_single_line (p : List Char) (h : lineOk p) :
    chomp (p ++ ['\n']) = p := by
  obtain ⟨hn, hr⟩ := h
  have h1 : (p ++ ['\n']).reverse = '\n' :: p.reverse := by simp
  have h2 : List.dropWhile (fun c => c = '\n') ('\n' :: p.reverse)
      = List.dropWhile (fun c => c = '\n') p.reverse := by
    simp [List.dropWhile_cons]
  have hdropn : p.reverse.dropWhile (fun c => c = '\n') = p.reverse := by
    cases hrev : p.reverse with
    | nil => rfl
    | cons a l =>
        have ha : a ∈ p := by
          have : a ∈ p.reverse := by rw [hrev]; simp
          simpa using this
        have : ¬ a = '\n' := fun hc => hn (hc ▸ ha)
        simp [List.dropWhile_cons, this]
  have hdropr : p.reverse.dropWhile (fun c => c = '\r') = p.reverse := by
    cases hrev : p.reverse with
    | nil => rfl
    | cons a l =>
        have ha : a ∈ p := by
          have : a ∈ p.reverse := by rw [hrev]; simp
          simpa using this
        have : ¬ a = '\r' := fun hc => hr (hc ▸ ha)
        simp [List.dropWhile_cons, this]
  unfold chomp
  rw [h1, h2, hdropn, hdropr, List.reverse_reverse]

theorem pyLinesPos_record (k d p rest : List Char)
    (hk : lineOk k) (hd : lineOk d) (hp : lineOk p) :
    pyLinesPos (mkRecord k d p ++ rest) =
      (k ++ ['\n'], (k ++ ['\n']).length) :: (d ++ ['\n'], (d ++ ['\n']).length)
        :: (p ++ ['\n'], (p ++ ['\n']).length) :: pyLinesPos rest := by
  have h1 : mkRecord k d p ++ rest = k ++ '\n' :: (d ++ '\n' :: (p ++ '\n' :: rest)) := by
    simp [mkRecord]
  have hne1 : mkRecord k d p ++ rest ≠ [] := by
    rw [h1]
    cases k <;> simp
  rw [pyLinesPos_cons _ hne1, h1, pyReadLine_newline k _ hk.1 hk.2]
  have hne2 : d ++ '\n' :: (p ++ '\n' :: rest) ≠ [] := by cases d <;> simp
  rw [pyLinesPos_cons _ hne2, pyReadLine_newline d _ hd.1 hd.2]
  have hne3 : p ++ '\n' :: rest ≠ [] := by cases p <;> simp
  rw [pyLinesPos_cons _ hne3, pyReadLine_newline p _ hp.1 hp.2]
  have hb1 : (k ++ '\n' :: (d ++ '\n' :: (p ++ '\n' :: rest))).length
      - (d ++ '\n' :: (p ++ '\n' :: rest)).length = (k ++ ['\n']).length := by
    simp [List.length_append]
    omega
  have hb2 : (d ++ '\n' :: (p ++ '\n' :: rest)).length
      - (p ++ '\n' :: rest).length = (d ++ ['\n']).length := by
    simp [List.length_append]
    omega
  have hb3 : (p ++ '\n' :: rest).length - rest.length = (p ++ ['\n']).length := by
    simp [List.length_append]
    omega
  rw [hb1, hb2, hb3]

theorem pyLinesPos_joinRecords_append :
    ∀ (rs : List (List Char × List Char × List Char)) (rest : List Char),
    (∀ r ∈ rs, recOk r) →
    pyLinesPos (joinRecords rs ++ rest) = recordLines rs ++ pyLinesPos rest
  | [], rest, _ => by simp [joinRecords, recordLines]
  | (k, d, p) :: rs, rest, h => by
      have hr : recOk (k, d, p) := h _ (by simp)
      obtain ⟨hk, ⟨hd, _⟩, hp⟩ := hr
      have hrs : ∀ r ∈ rs, recOk r := fun r hmem => h r (by simp [hmem])
      show pyLinesPos ((mkRecord k d p ++ joinRecords rs) ++ rest) = _
      rw [List.append_assoc, pyLinesPos_record k d p _ hk hd hp,
        pyLinesPos_joinRecords_append rs rest hrs]
      simp [recordLines]

theorem pyLinesPos_joinRecords (rs : List (List Char × List Char × List Char))
    (h : ∀ r ∈ rs, recOk r) : pyLinesPos (joinRecords rs) = recordLines rs := by
  have := pyLinesPos_joinRecords_append rs [] h
  simpa [pyLinesPos_nil] using this

/-- The index produced by scanning a list of whole records starting at
`pos`: each key maps to the byte offset at which its record starts,
later records overwriting earlier ones with the same key. -/
def loadRecs : List (List Char × List Char × List Char) → Nat → CacheDict → CacheDict
  | [], _, d => d
  | (k, dt, p) :: rest, pos, d =>
      loadRecs rest (pos + (mkRecord k dt p).length) (dictInsert d k (pos, dt))

theorem linesLoad_recordLines :
    ∀ (rs : List (List Char × List Char × List Char)) (ls : List (List Char × Nat))
      (pos : Nat) (d : CacheDict),
    (∀ r ∈ rs, recOk r) →
    linesLoad (recordLines rs ++ ls) pos d
      = linesLoad ls (pos + (joinRecords rs).length) (loadRecs rs pos d)
  | [], ls, pos, d, _ => by simp [recordLines, joinRecords, loadRecs]
  | (k, dt, p) :: rs, ls, pos, d, h => by
      have hr : recOk (k, dt, p) := h _ (by simp)
      obtain ⟨hkOk, ⟨hdOk, hd8⟩, hpOk⟩ := hr
      have hrs : ∀ r ∈ rs, recOk r := fun r hmem => h r (by simp [hmem])
      show linesLoad ((k ++ ['\n'], (k ++ ['\n']).length)
        :: (dt ++ ['\n'], (dt ++ ['\n']).length)
        :: (p ++ ['\n'], (p ++ ['\n']).length) :: (recordLines rs ++ ls)) pos d = _
      rw [linesLoad]
      rw [chomp_single_line dt hdOk, if_pos hd8, chomp_single_line k hkOk]
      rw [linesLoad_recordLines rs ls _ _ hrs]
      have hlen : (k ++ ['\n']).length + (dt ++ ['\n']).length + (p ++ ['\n']).length
      = (mkRecord k dt p).length := by
        simp [mkRecord]; omega
      rw [hlen]
      show linesLoad ls (pos + (mkRecord k dt p).length + (joinRecords rs).length) _
        = linesLoad ls (pos + (joinRecords (_ :: rs)).length) _
      have : (joinRecords ((k, dt, p) :: rs)).length
          = (mkRecord k dt p).length + (joinRecords rs).length := by
        simp [joinRecords]
      rw [this, loadRecs]
      ring_nf
/-- Per-process state of the `rxnav_rest_api_mp` class: constructor
flags, the in-memory index, the cache file (content plus the handle's
cursor and the source's own `rxnav_cache_file_at_EOF` flag), the
messages this process has put on the cache-writer queue, and the
request counters. -/
structure RxnavState where
  use_caching : Bool
  fail_if_not_in_cache : Bool
  forward_result_to_cache_writer : Bool
  readonly_access_to_cache : Bool
  rxnav_cache : CacheDict
  file : List Char
  cursor : Nat
  at_eof : Bool
  queue : List (List Char × List Char)
  request_count : Nat
  rxnav_cache_hits : Nat
  rxnav_request_count : Nat
  deriving DecidableEq

/-- The constructor of `rxnav_rest_api_mp` when a cache filename is
given: open the cache file, load the existing index
(`load_existing_cache`, which can raise the format `ValueError`,
modelled as `none`), leaving the cursor at end of file. -/
def rxnav_init (file : List Char) (readonly forward strict : Bool) :
    Option RxnavState :=
  match load_existing_cache file with
  | none => none
  | some ix => some
      { use_caching := true
        fail_if_not_in_cache := strict
        forward_result_to_cache_writer := forward
        readonly_access_to_cache := readonly
        rxnav_cache := ix
        file := file
        cursor := file.length
        at_eof := true
        queue := []
        request_count := 0
        rxnav_cache_hits := 0
        rxnav_request_count := 0 }

/-- A concretely assembled state, used to instantiate theorems: the
given index with the given file, cursor at end of file, empty queue. -/
def initState (file : List Char) (ix : CacheDict) (strict forward : Bool) : RxnavState :=
  { use_caching := true
    fail_if_not_in_cache := strict
    forward_result_to_cache_writer := forward
    readonly_access_to_cache := true
    rxnav_cache := ix
    file := file
    cursor := file.length
    at_eof := true
    queue := []
    request_count := 0
    rxnav_cache_hits := 0
    rxnav_request_count := 0 }

/-- Outcome of one `get_rxnav_data` call.  `hit` is the cache branch,
`fetched` the REST branch; `errNotCached` is the strict-mode
`ValueError`, `errConnection` the `ConnectionError` raised after the
retry budget is exhausted. -/
inductive FetchResult where
  | hit (payload : List Char)
  | fetched (payload : List Char)
  | errNotCached
  | errConnection
  deriving DecidableEq

/-- The retry loop of `get_rxnav_data` (`for idx in range(retry_limit)`
with `requests.get` in a `try`): `net i` is the outcome of attempt `i`.
Returns the first successful response (if any within the bound) and
the number of attempts actually issued. -/
def attemptLoop (net : Nat → Option (List Char)) : Nat → Nat → Option (List Char) × Nat
  | _, 0 => (none, 0)
  | start, rem + 1 =>
      match net start with
      | some t => (some t, 1)
      | none =>
          let r := attemptLoop net (start + 1) rem
          (r.1, r.2 + 1)

/-- The payload a cache hit reads: seek to the stored offset, skip two
lines, read and chomp the third (the JSON text). -/
def payloadAtOffset (file : List Char) (off : Nat) : List Char :=
  chomp ((pyReadLine ((pyReadLine ((pyReadLine (file.drop off)).2)).2)).1)

/-- `get_rxnav_data` (`rxnav_rest_api_mp.py` lines 154–229).  Returns
the result, the state after the call, and the number of remote
(`requests.get`) attempts issued.  Faithful to the source: bump
`request_count`; if caching is on and the url is indexed, read the
third line of the entry from the file (no network, nothing queued);
otherwise in strict mode raise; otherwise retry the remote call up to
40 times, raising `ConnectionError` when every attempt fails, and on
success bump `rxnav_request_count` and, when forwarding is on, enqueue
`[request_url, r.text]` for the cache writer.  (The source also parses
the JSON text and writes throughput logs; parsing is a fixed injective
decoding of the returned text and logging has no bearing on state.) -/
def get_rxnav_data (s : RxnavState) (net : Nat → Option (List Char))
    (request_url : List Char) : FetchResult × RxnavState × Nat :=
  let s1 : RxnavState := { s with request_count := s.request_count + 1 }
  match dictGet s1.rxnav_cache request_url, s1.use_caching with
  | some (off, _), true =>
      let r1 := (pyReadLine (s1.file.drop off)).2
      let r2 := (pyReadLine r1).2
      let l3 := (pyReadLine r2).1
      let r3 := (pyReadLine r2).2
      (.hit (chomp l3),
       { s1 with rxnav_cache_hits := s1.rxnav_cache_hits + 1,
                 cursor := off + ((s1.file.drop off).length - r3.length),
                 at_eof := false },
       0)
  | _, _ =>
      if s1.fail_if_not_in_cache then (.errNotCached, s1, 0)
      else
        match attemptLoop net 0 40 with
        | (none, c) => (.errConnection, s1, c)
        | (some text, c) =>
            let s2 : RxnavState :=
              { s1 with rxnav_request_count := s1.rxnav_request_count + 1 }
            let s3 : RxnavState :=
              if s2.forward_result_to_cache_writer
              then { s2 with queue := s2.queue ++ [(request_url, text)] }
              else s2
            (.fetched text, s3, c)

/-- `write_cache_entry` (`rxnav_rest_api_mp.py` lines 231–242): if the
handle's EOF flag is down, seek to end of file; take `tell()` as the
entry's file position; append the three lines (the handle is open in
append mode, so the write lands at end of file and leaves the cursor
there); record `url ↦ (file position, date)` in the writer's own
index.  `today` is the `datetime.now()` date string the source
formats.  The second component of the result is the Python return
value of the function — the source has no `return` statement, so it
is always `none`. -/
def write_cache_entry (s : RxnavState) (request_url json_string today : List Char) :
    RxnavState × Option Nat :=
  let cursor1 := if s.at_eof then s.cursor else s.file.length
  let file_position := cursor1
  let newfile := s.file ++ mkRecord request_url today json_string
  ({ s with file := newfile
            cursor := newfile.length
            at_eof := true
            rxnav_cache := dictInsert s.rxnav_cache request_url (file_position, today) },
   none)

/-- `math.ceil(n / float(workerCount))` from
`phase1__get_allrelated_plus_historicalrxcui` and
`phase2__get_ndc_for_drugs` (`build_rxnorm_metadata.py`), as the exact
natural-number ceiling. -/
def segsize (n workerCount : Nat) : Nat := (n + workerCount - 1) / workerCount

/-- The work segments the orchestrator builds:
`rxcui_list[(segsize * idx):(segsize * (idx + 1))]` for
`idx in range(workerCount)`, with Python slice clamping. -/
def segments (l : List Nat) (workerCount : Nat) : List (List Nat) :=
  (List.range workerCount).map
    (fun i => (l.drop (segsize l.length workerCount * i)).take (segsize l.length workerCount))

theorem segments_get (l : List Nat) (wc i : Nat) (h : i < wc) :
    (segments l wc).getD i []
      = (l.drop (segsize l.length wc * i)).take (segsize l.length wc) := by
  unfold segments
  rw [List.getD_eq_getElem?_getD, List.getElem?_map, List.getElem?_range h]
  rfl

theorem segsize_mul_ge (n wc : Nat) (h : 1 ≤ wc) : n ≤ segsize n wc * wc := by
  unfold segsize
  rw [Nat.mul_comm]
  have hdm := Nat.div_add_mod (n + wc - 1) wc
  have hlt : (n + wc - 1) % wc < wc := Nat.mod_lt _ (by omega)
  omega

theorem segments_join_take (l : List Nat) (c : Nat) :
    ∀ k : Nat, ((List.range k).map (fun i => (l.drop (c * i)).take c)).flatten = l.take (c * k)
  | 0 => by simp
  | k + 1 => by
      rw [List.range_succ, List.map_append, List.flatten_append,
        segments_join_take l c k]
      simp only [List.map_cons, List.map_nil, List.flatten_cons, List.flatten_nil,
        List.append_nil]
      rw [Nat.mul_succ, List.take_add]

theorem segments_join (l : List Nat) (wc : Nat) (h : 1 ≤ wc) :
    (segments l wc).flatten = l := by
  unfold segments
  rw [segments_join_take l (segsize l.length wc) wc]
  exact List.take_of_length_le (segsize_mul_ge l.length wc h)

/-- A message on the multiprocessing queue, as the Python object kinds
`cache_writer_task` can distinguish: a list (of strings), a string, or
any other object. -/
inductive MpMsg where
  | pylist (xs : List (List Char))
  | pystr (t : List Char)
  | other
  deriving DecidableEq

/-- How a run of the cache-writer loop ends. -/
inductive WriterExit where
  | stopped
  | fatal
  | pending
  deriving DecidableEq

/-- The loop of `cache_writer_task` (`build_rxnorm_metadata.py` lines
243–255) over a finite message sequence: a list message is unpacked
into `(request_url, json_result_string)` and written (unpacking a list
whose arity is not 2 raises, i.e. `fatal`); the string message `kill`
stops the loop; any other message matches neither branch and the loop
silently continues.  `pending` means the sequence was exhausted with
the writer still blocked on `mp_queue.get()`. -/
def cache_writer_run (today : List Char) :
    RxnavState → List MpMsg → RxnavState × WriterExit
  | s, [] => (s, .pending)
  | s, .pylist [u, j] :: rest =>
      cache_writer_run today (write_cache_entry s u j today).1 rest
  | s, .pylist _ :: _ => (s, .fatal)
  | s, .pystr t :: rest =>
      if t = "kill".toList then (s, .stopped)
      else cache_writer_run today s rest
  | s, .other :: rest => cache_writer_run today s rest

/-- Errors that terminate a worker task. -/
inductive WorkerErr where
  | indexErrorEmptySegment
  | cacheFormat
  | remoteUnavailable
  | notCached
  deriving DecidableEq

/-- Observable outcome of a worker task: whether it got as far as
loading its cache snapshot, whether it passed the startup barrier, and
how the processing ended. -/
structure WorkerTrace where
  snapshotLoaded : Bool
  barrierPassed : Bool
  outcome : Except WorkerErr RxnavState

def allrelated_url (rxcui : Nat) : List Char :=
  ("https://rxnav.nlm.nih.gov/REST/rxcui/" ++ toString rxcui ++ "/allrelated.json").toList

def historical_url (rxcui : Nat) : List Char :=
  ("https://rxnav.nlm.nih.gov/REST/rxcuihistory/concept.json?rxcui=" ++ toString rxcui).toList

def ndc_url (rxcui : Nat) : List Char :=
  ("https://rxnav.nlm.nih.gov/REST/rxcui/" ++ toString rxcui ++ "/allhistoricalndcs/json").toList

/-- One `get_rxnav_data` call made by a worker, converting the error
results into the exceptions that kill the worker process. -/
def workerFetch (net : List Char → Nat → Option (List Char)) (s : RxnavState)
    (url : List Char) : Except WorkerErr RxnavState :=
  match get_rxnav_data s (net url) url with
  | (.errConnection, _, _) => .error .remoteUnavailable
  | (.errNotCached, _, _) => .error .notCached
  | (.hit _, s2, _) => .ok s2
  | (.fetched _, s2, _) => .ok s2

/-- The processing loop of `worker_task_rxcuis`: for each RxCUI in the
segment, `get_allrelated` then `get_historical_rxcui` (each a
`get_rxnav_data` call on the corresponding url). -/
def worker_process_rxcuis (net : List Char → Nat → Option (List Char)) :
    RxnavState → List Nat → Except WorkerErr RxnavState
  | s, [] => .ok s
  | s, rxcui :: rest =>
      match workerFetch net s (allrelated_url rxcui) with
      | .error e => .error e
      | .ok s2 =>
          match workerFetch net s2 (historical_url rxcui) with
          | .error e => .error e
          | .ok s3 => worker_process_rxcuis net s3 rest

/-- The processing loop of `worker_task_ndcs`: one
`get_ndc_codes_for_drug` call per drug RxCUI. -/
def worker_process_ndcs (net : List Char → Nat → Option (List Char)) :
    RxnavState → List Nat → Except WorkerErr RxnavState
  | s, [] => .ok s
  | s, rxcui :: rest =>
      match workerFetch net s (ndc_url rxcui) with
      | .error e => .error e
      | .ok s2 => worker_process_ndcs net s2 rest

/-- `worker_task_rxcuis` (`build_rxnorm_metadata.py` lines 146–185).
The very first statement after opening the log prints
`rxcui_code_list[0]` and `rxcui_code_list[-1]`; on an empty segment
that raises `IndexError` before the `rxnav_rest_api_mp` constructor
runs (so before the cache snapshot is read) and before
`barrier.wait()`.  Otherwise the snapshot is loaded (worker flags:
read-only, forwarding on, strict off), the barrier is passed, and the
segment is processed. -/
def worker_task_rxcuis (cacheFile : List Char)
    (net : List Char → Nat → Option (List Char)) (seg : List Nat) : WorkerTrace :=
  match seg with
  | [] => ⟨false, false, .error .indexErrorEmptySegment⟩
  | _ :: _ =>
      match rxnav_init cacheFile true true false with
      | none => ⟨false, false, .error .cacheFormat⟩
      | some s0 => ⟨true, true, worker_process_rxcuis net s0 seg⟩

/-- `worker_task_ndcs` (`build_rxnorm_metadata.py` lines 188–227),
with the same empty-segment failure shape as `worker_task_rxcuis`. -/
def worker_task_ndcs (cacheFile : List Char)
    (net : List Char → Nat → Option (List Char)) (seg : List Nat) : WorkerTrace :=
  match seg with
  | [] => ⟨false, false, .error .indexErrorEmptySegment⟩
  | _ :: _ =>
      match rxnav_init cacheFile true true false with
      | none => ⟨false, false, .error .cacheFormat⟩
      | some s0 => ⟨true, true, worker_process_ndcs net s0 seg⟩

theorem get_rxnav_data_hit (s : RxnavState) (net : Nat → Option (List Char))
    (url : List Char) (off : Nat) (dt : List Char)
    (hc : s.use_caching = true)
    (hh : dictGet s.rxnav_cache url = some (off, dt)) :
    get_rxnav_data s net url
      = (.hit (payloadAtOffset s.file off),
         { s with request_count := s.request_count + 1,
                  rxnav_cache_hits := s.rxnav_cache_hits + 1,
                  cursor := off + ((s.file.drop off).length
                    - (pyReadLine ((pyReadLine ((pyReadLine (s.file.drop off)).2)).2)).2.length),
                  at_eof := false }, 0) := by
  unfold get_rxnav_data payloadAtOffset
  simp only [hh, hc]

theorem get_rxnav_data_notCached (s : RxnavState) (net : Nat → Option (List Char))
    (url : List Char)
    (hmiss : dictGet s.rxnav_cache url = none)
    (hstrict : s.fail_if_not_in_cache = true) :
    get_rxnav_data s net url
      = (.errNotCached, { s with request_count := s.request_count + 1 }, 0) := by
  unfold get_rxnav_data
  simp only [hmiss, hstrict]
  simp

theorem attemptLoop_success (net : Nat → Option (List Char)) :
    ∀ (k start rem : Nat) (t : List Char), k < rem →
    (∀ j, j < k → net (start + j) = none) → net (start + k) = some t →
    attemptLoop net start rem = (some t, k + 1)
  | 0, start, rem, t, hk, _, hs => by
      cases rem with
      | zero => omega
      | succ r =>
          have hs0 : net start = some t := hs
          simp [attemptLoop, hs0]
  | k + 1, start, rem, t, hk, hf, hs => by
      cases rem with
      | zero => omega
      | succ r =>
          have h0 : net start = none := by
            have := hf 0 (by omega)
            simpa using this
          have hf2 : ∀ j, j < k → net (start + 1 + j) = none := by
            intro j hj
            have heq : start + 1 + j = start + (j + 1) := by omega
            rw [heq]
            exact hf (j + 1) (by omega)
          have hs2 : net (start + 1 + k) = some t := by
            have heq : start + 1 + k = start + (k + 1) := by omega
            rw [heq]; exact hs
          have hrec := attemptLoop_success net k (start + 1) r t (by omega) hf2 hs2
          simp [attemptLoop, h0, hrec]

theorem attemptLoop_fail (net : Nat → Option (List Char)) :
    ∀ (rem start : Nat),
    (∀ j, j < rem → net (start + j) = none) →
    attemptLoop net start rem = (none, rem)
  | 0, _, _ => rfl
  | rem + 1, start, h => by
      have h0 : net start = none := by
        have := h 0 (by omega)
        simpa using this
      have hrec := attemptLoop_fail net rem (start + 1) (fun j hj => by
        have heq : start + 1 + j = start + (j + 1) := by omega
        rw [heq]
        exact h (j + 1) (by omega))
      simp [attemptLoop, h0, hrec]

theorem attemptLoop_pos (net : Nat → Option (List Char)) (start rem : Nat) :
    1 ≤ (attemptLoop net start (rem + 1)).2 := by
  cases h : net start <;> simp [attemptLoop, h]

theorem get_rxnav_data_connFail (s : RxnavState) (net : Nat → Option (List Char))
    (url : List Char)
    (hmiss : dictGet s.rxnav_cache url = none)
    (hstrict : s.fail_if_not_in_cache = false)
    (hfail : ∀ j, j < 40 → net j = none) :
    get_rxnav_data s net url
      = (.errConnection, { s with request_count := s.request_count + 1 }, 40) := by
  have hal : attemptLoop net 0 40 = (none, 40) :=
    attemptLoop_fail net 40 0 (fun j hj => by simpa using hfail j hj)
  unfold get_rxnav_data
  simp only [hmiss, hstrict, hal]
  simp

theorem get_rxnav_data_fetchSuccess (s : RxnavState) (net : Nat → Option (List Char))
    (url : List Char) (k : Nat) (t : List Char)
    (hmiss : dictGet s.rxnav_cache url = none)
    (hstrict : s.fail_if_not_in_cache = false)
    (hk : k < 40)
    (hf : ∀ j, j < k → net j = none) (hs : net k = some t) :
    get_rxnav_data s net url
      = (.fetched t,
         (if s.forward_result_to_cache_writer then
            { s with request_count := s.request_count + 1,
                     rxnav_request_count := s.rxnav_request_count + 1,
                     queue := s.queue ++ [(url, t)] }
          else
            { s with request_count := s.request_count + 1,
                     rxnav_request_count := s.rxnav_request_count + 1 }),
         k + 1) := by
  have hal : attemptLoop net 0 40 = (some t, k + 1) :=
    attemptLoop_success net k 0 40 t hk (fun j hj => by simpa using hf j hj)
      (by simpa using hs)
  unfold get_rxnav_data
  simp only [hmiss, hstrict, hal]
  by_cases hfw : s.forward_result_to_cache_writer <;> simp [hfw]

theorem joinRecords_append (rs1 rs2 : List (List Char × List Char × List Char)) :
    joinRecords (rs1 ++ rs2) = joinRecords rs1 ++ joinRecords rs2 := by
  induction rs1 with
  | nil => simp [joinRecords]
  | cons r rs ih =>
      obtain ⟨k, dt, p⟩ := r
      simp [joinRecords, ih]

theorem load_records (rs : List (List Char × List Char × List Char))
    (hrs : ∀ r ∈ rs, recOk r) :
    load_existing_cache (joinRecords rs) = some (loadRecs rs 0 []) := by
  have hbridge : load_existing_cache (joinRecords rs)
      = linesLoad (pyLinesPos (joinRecords rs)) 0 [] :=
    loadCacheLoop_eq_linesLoad _ _ 0 [] (by omega)
  rw [hbridge, pyLinesPos_joinRecords rs hrs]
  have h := linesLoad_recordLines rs [] 0 [] hrs
  simpa [linesLoad] using h

/-- C1 (amended): `load_existing_cache` succeeds exactly when the log
file splits into whole three-line groups — lines as Python universal
newlines delimit them: a trailing partial group of 1 or 2 leftover
lines is fatal — **and** every group's chomped second line has exactly
8 characters (the `YYYYMMDD` check, which the claim omits); the
successful scan equals the group-by-group loader, so a whole-group
line count is necessary for success (including the empty file, which
yields the empty index), and a file made of well-formed records
indexes each record's key to the byte offset at which the record
starts (later duplicates overwriting earlier ones). -/
theorem c1_load_index_amended (cs : List Char) :
    ((load_existing_cache cs).isSome = true ↔ groupsOk (pyLinesPos cs) = true)
    ∧ load_existing_cache cs = linesLoad (pyLinesPos cs) 0 []
    ∧ (groupsOk (pyLinesPos cs) = true → 3 ∣ (pyLines cs).length)
    ∧ (∀ rs : List (List Char × List Char × List Char),
        (∀ r ∈ rs, recOk r) → cs = joinRecords rs →
        load_existing_cache cs = some (loadRecs rs 0 [])) := by
  have hbridge : load_existing_cache cs = linesLoad (pyLinesPos cs) 0 [] :=
    loadCacheLoop_eq_linesLoad _ _ 0 [] (by omega)
  refine ⟨?_, hbridge, ?_, ?_⟩
  · rw [hbridge, linesLoad_isSome]
  · intro hok
    have hdvd := groupsOk_length_dvd _ hok
    simpa [pyLines] using hdvd
  · intro rs hrs hcs
    subst hcs
    exact load_records rs hrs

/-- C1 witness: a one-record file with a valid date loads, and its
line count is a multiple of three. -/
theorem c1_load_index_amended_witness :
    (load_existing_cache "u\n20180101\nRES\n".toList).isSome = true
    ∧ 3 ∣ (pyLines "u\n20180101\nRES\n".toList).length :=
  ⟨(c1_load_index_amended "u\n20180101\nRES\n".toList).1.mpr (by decide),
   (c1_load_index_amended "u\n20180101\nRES\n".toList).2.2.1 (by decide)⟩

/-- C1 counterexample: a file whose line count is a clean multiple of
three (3 lines, no truncated record) on which `load_existing_cache`
nevertheless fails, because the second line does not chomp to 8
characters — refuting both "fails exactly when truncated mid-record"
and "every multiple-of-three file loads without error". -/
theorem c1_counterexample :
    (pyLines "k\n20x\nv\n".toList).length = 3
    ∧ load_existing_cache "k\n20x\nv\n".toList = none := by
  constructor
  · decide
  · decide

/-- C3 counterexample: with `n = 5` work items and `workerCount = 4`,
`segsize = ceil(5/4) = 2` and the computed segments are
`[[0,1], [2,3], [4], []]`: the segment at index 2 is **not** the last
(index 3 is), yet its size is 1 ≠ 2 — refuting "every segment except
possibly the last has size exactly ceil(n/workerCount)". -/
theorem c3_counterexample :
    segsize 5 4 = 2
    ∧ segments [0, 1, 2, 3, 4] 4 = [[0, 1], [2, 3], [4], []]
    ∧ ((segments [0, 1, 2, 3, 4] 4).getD 2 []).length ≠ segsize 5 4
    ∧ 2 < 4 - 1 := by
  refine ⟨by decide, by decide, by decide, by decide⟩

theorem segments_length_eq (l : List Nat) (wc i : Nat) (h : i < wc) :
    ((segments l wc).getD i []).length
      = min (segsize l.length wc) (l.length - segsize l.length wc * i) := by
  rw [segments_get l wc i h]
  simp [List.length_take, List.length_drop]

/-- C3 (amended): for all `n ≥ 0` and `workerCount ≥ 1` the segments
are consecutive slices of the sorted list (hence pairwise disjoint
index ranges) whose concatenation in order is exactly the original
list, and segment `i` has size `min(segsize, n − segsize·i)` (natural
subtraction).  Consequently a segment is full whenever the next slice
still starts within the list, and once any segment is empty every
later one is also empty — the shortfall is *not* confined to the last
segment: one segment may be partially filled and all following ones
empty. -/
theorem c3_partition_amended (l : List Nat) (wc : Nat) (hwc : 1 ≤ wc) :
    (segments l wc).flatten = l
    ∧ (∀ i, i < wc → (segments l wc).getD i []
        = (l.drop (segsize l.length wc * i)).take (segsize l.length wc))
    ∧ (∀ i, i < wc → ((segments l wc).getD i []).length
        = min (segsize l.length wc) (l.length - segsize l.length wc * i))
    ∧ (∀ i, i < wc → segsize l.length wc * (i + 1) ≤ l.length →
        ((segments l wc).getD i []).length = segsize l.length wc)
    ∧ (∀ i j, i ≤ j → j < wc → (segments l wc).getD i [] = [] →
        (segments l wc).getD j [] = []) := by
  refine ⟨segments_join l wc hwc, fun i hi => segments_get l wc i hi,
    fun i hi => segments_length_eq l wc i hi, ?_, ?_⟩
  · intro i hi hfits
    rw [segments_length_eq l wc i hi]
    have : segsize l.length wc * (i + 1)
        = segsize l.length wc * i + segsize l.length wc := by ring
    omega
  · intro i j hij hj hempty
    have hi : i < wc := by omega
    have h1 : ((segments l wc).getD i []).length = 0 := by rw [hempty]; rfl
    rw [segments_length_eq l wc i hi] at h1
    have h2 : ((segments l wc).getD j []).length = 0 := by
      rw [segments_length_eq l wc j hj]
      have hmono : segsize l.length wc * i ≤ segsize l.length wc * j :=
        Nat.mul_le_mul_left _ hij
      omega
    exact List.eq_nil_of_length_eq_zero h2

/-- C3 witness: the spec's own example `n = 10, workerCount = 4` gives
sizes `[3,3,3,1]` and the flattened segments restore the list. -/
theorem c3_partition_amended_witness :
    (segments [0, 1, 2, 3, 4, 5, 6, 7, 8, 9] 4).flatten = [0, 1, 2, 3, 4, 5, 6, 7, 8, 9]
    ∧ ((segments [0, 1, 2, 3, 4, 5, 6, 7, 8, 9] 4).getD 0 []).length = 3 := by
  have h := c3_partition_amended [0, 1, 2, 3, 4, 5, 6, 7, 8, 9] 4 (by decide)
  refine ⟨h.1, ?_⟩
  have h4 := h.2.2.2.1 0 (by decide) (by decide)
  simpa using h4

/-- C4 (confirmed): for a request url absent from the index with strict
mode off, if the first `k < 40` attempts raise and attempt `k+1` (index
`k`) succeeds with text `t`, `get_rxnav_data` returns the fetched
result having issued exactly `k+1` remote attempts; if all 40 attempts
raise, it raises `ConnectionError` after exactly 40 attempts and puts
nothing on the cache-writer queue. -/
theorem c4_retry_bound (s : RxnavState) (net : Nat → Option (List Char))
    (url : List Char)
    (hmiss : dictGet s.rxnav_cache url = none)
    (hstrict : s.fail_if_not_in_cache = false) :
    (∀ k t, k < 40 → (∀ j, j < k → net j = none) → net k = some t →
      (get_rxnav_data s net url).1 = FetchResult.fetched t
      ∧ (get_rxnav_data s net url).2.2 = k + 1)
    ∧ ((∀ j, j < 40 → net j = none) →
      (get_rxnav_data s net url).1 = FetchResult.errConnection
      ∧ (get_rxnav_data s net url).2.2 = 40
      ∧ (get_rxnav_data s net url).2.1.queue = s.queue) := by
  constructor
  · intro k t hk hf hs
    rw [get_rxnav_data_fetchSuccess s net url k t hmiss hstrict hk hf hs]
    exact ⟨rfl, rfl⟩
  · intro hfail
    rw [get_rxnav_data_connFail s net url hmiss hstrict hfail]
    exact ⟨rfl, rfl, rfl⟩

/-- C4 witness: an empty-cache worker state with a network that fails
twice then answers on the third attempt makes exactly 3 attempts; one
that always fails makes exactly 40 and leaves the queue empty. -/
theorem c4_retry_bound_witness :
    ((get_rxnav_data (initState [] [] false true)
        (fun i => if i = 2 then some "R".toList else none) "x".toList).2.2 = 3)
    ∧ ((get_rxnav_data (initState [] [] false true) (fun _ => none) "x".toList).1
        = FetchResult.errConnection)
    ∧ ((get_rxnav_data (initState [] [] false true) (fun _ => none) "x".toList).2.1.queue
        = []) := by
  have h1 := (c4_retry_bound (initState [] [] false true)
      (fun i => if i = 2 then some "R".toList else none) "x".toList
      (by decide) (by decide)).1 2 "R".toList (by decide)
      (by decide) (by decide)
  have h2 := (c4_retry_bound (initState [] [] false true)
      (fun _ => none) "x".toList (by decide) (by decide)).2
      (fun j _ => rfl)
  exact ⟨h1.2, h2.1, h2.2.2⟩

/-- C5 (confirmed): when caching is enabled and the url is present in
the loaded index, `get_rxnav_data` returns the payload read from the
cache file at the indexed offset (third line of the entry, chomped),
issues zero remote attempts, enqueues nothing to the cache-writer
queue, and leaves index and file unchanged. -/
theorem c5_cache_hit (s : RxnavState) (net : Nat → Option (List Char))
    (url : List Char) (off : Nat) (dt : List Char)
    (hc : s.use_caching = true)
    (hh : dictGet s.rxnav_cache url = some (off, dt)) :
    (get_rxnav_data s net url).1 = FetchResult.hit (payloadAtOffset s.file off)
    ∧ (get_rxnav_data s net url).2.2 = 0
    ∧ (get_rxnav_data s net url).2.1.queue = s.queue
    ∧ (get_rxnav_data s net url).2.1.rxnav_cache = s.rxnav_cache
    ∧ (get_rxnav_data s net url).2.1.file = s.file := by
  rw [get_rxnav_data_hit s net url off dt hc hh]
  exact ⟨rfl, rfl, rfl, rfl, rfl⟩

/-- C5 witness: a hit on a concrete one-record cache returns the stored
payload with zero remote attempts and an unchanged queue. -/
theorem c5_cache_hit_witness :
    (get_rxnav_data (initState "u\n20180101\nPAY\n".toList
        [("u".toList, (0, "20180101".toList))] false true) (fun _ => none)
        "u".toList).1
      = FetchResult.hit (payloadAtOffset "u\n20180101\nPAY\n".toList 0)
    ∧ (get_rxnav_data (initState "u\n20180101\nPAY\n".toList
        [("u".toList, (0, "20180101".toList))] false true) (fun _ => none)
        "u".toList).2.2 = 0 := by
  have h := c5_cache_hit (initState "u\n20180101\nPAY\n".toList
      [("u".toList, (0, "20180101".toList))] false true) (fun _ => none)
      "u".toList 0 "20180101".toList (by decide) (by decide)
  exact ⟨h.1, h.2.1⟩

/-- C6 (confirmed): with strict cache-only mode set (and caching on, as
in the metadata-writer configuration that uses it), `get_rxnav_data`
raises `NotCached` exactly when the url is absent from the loaded
index; when it raises it has made no remote attempt, enqueued nothing,
and left index and file unchanged; with strict mode off, the same
absence leads to at least one remote attempt. -/
theorem c6_strict_mode (s : RxnavState) (net : Nat → Option (List Char))
    (url : List Char)
    (hstrict : s.fail_if_not_in_cache = true)
    (hc : s.use_caching = true) :
    ((get_rxnav_data s net url).1 = FetchResult.errNotCached
      ↔ dictGet s.rxnav_cache url = none)
    ∧ (dictGet s.rxnav_cache url = none →
        (get_rxnav_data s net url).2.2 = 0
        ∧ (get_rxnav_data s net url).2.1.queue = s.queue
        ∧ (get_rxnav_data s net url).2.1.rxnav_cache = s.rxnav_cache
        ∧ (get_rxnav_data s net url).2.1.file = s.file)
    ∧ (∀ s2 : RxnavState, s2.fail_if_not_in_cache = false →
        dictGet s2.rxnav_cache url = none →
        1 ≤ (get_rxnav_data s2 net url).2.2) := by
  refine ⟨?_, ?_, ?_⟩
  · constructor
    · intro hres
      cases hd : dictGet s.rxnav_cache url with
      | none => rfl
      | some v =>
          obtain ⟨off, dt⟩ := v
          rw [get_rxnav_data_hit s net url off dt hc hd] at hres
          exact absurd hres (by simp)
    · intro hd
      rw [get_rxnav_data_notCached s net url hd hstrict]
  · intro hd
    rw [get_rxnav_data_notCached s net url hd hstrict]
    exact ⟨rfl, rfl, rfl, rfl⟩
  · intro s2 hstrict2 hd2
    unfold get_rxnav_data
    simp only [hd2, hstrict2]
    cases hal : attemptLoop net 0 40 with
    | mk o c =>
        have hpos : 1 ≤ c := by
          have := attemptLoop_pos net 0 39
          rw [hal] at this
          exact this
        cases o <;> simp [hpos]

/-- C6 witness: a strict-mode state over a one-record cache raises
`NotCached` for an absent url with zero remote attempts, and a
non-strict state retries the network at least once for the same url. -/
theorem c6_strict_mode_witness :
    (get_rxnav_data (initState "u\n20180101\nPAY\n".toList
        [("u".toList, (0, "20180101".toList))] true false) (fun _ => none)
        "w".toList).1 = FetchResult.errNotCached
    ∧ (get_rxnav_data (initState "u\n20180101\nPAY\n".toList
        [("u".toList, (0, "20180101".toList))] true false) (fun _ => none)
        "w".toList).2.2 = 0
    ∧ 1 ≤ (get_rxnav_data (initState [] [] false false) (fun _ => none)
        "w".toList).2.2 := by
  have h := c6_strict_mode (initState "u\n20180101\nPAY\n".toList
      [("u".toList, (0, "20180101".toList))] true false) (fun _ => none)
      "w".toList (by decide) (by decide)
  exact ⟨h.1.mpr (by decide), (h.2.1 (by decide)).1,
    h.2.2 (initState [] [] false false) (by decide) (by decide)⟩

/-- C7 counterexample: a message that is neither a list nor the string
`kill` (e.g. an integer) matches neither branch of the writer loop,
which silently continues: here the writer survives an unknown message
and then stops normally on `kill`, and an unknown message alone leaves
it waiting on the queue — in neither case is the condition fatal,
refuting "receiving any message of any other shape is a fatal error
(the writer does not silently continue)". -/
theorem c7_counterexample :
    (cache_writer_run "20180101".toList (initState [] [] false false)
        [MpMsg.other, MpMsg.pystr "kill".toList]).2 = WriterExit.stopped
    ∧ (cache_writer_run "20180101".toList (initState [] [] false false)
        [MpMsg.other]).2 = WriterExit.pending
    ∧ WriterExit.stopped ≠ WriterExit.fatal
    ∧ WriterExit.pending ≠ WriterExit.fatal := by
  refine ⟨rfl, rfl, by decide, by decide⟩

/-- C7 (amended): the writer loop handles exactly two message shapes —
a two-element list `(key, payload)`, which it appends to the store,
and the string `kill`, which terminates the loop.  A *list* of any
other arity is fatal (the unpacking raises), but a non-list message
other than `kill` is silently skipped and the loop continues; it is
not a fatal error. -/
theorem c7_writer_messages_amended (s : RxnavState) (today : List Char) :
    (∀ u j rest, cache_writer_run today s (MpMsg.pylist [u, j] :: rest)
        = cache_writer_run today (write_cache_entry s u j today).1 rest)
    ∧ (∀ rest, cache_writer_run today s (MpMsg.pystr "kill".toList :: rest)
        = (s, WriterExit.stopped))
    ∧ (∀ xs rest, xs.length ≠ 2 →
        cache_writer_run today s (MpMsg.pylist xs :: rest) = (s, WriterExit.fatal))
    ∧ (∀ t rest, t ≠ "kill".toList →
        cache_writer_run today s (MpMsg.pystr t :: rest) = cache_writer_run today s rest)
    ∧ (∀ rest, cache_writer_run today s (MpMsg.other :: rest)
        = cache_writer_run today s rest) := by
  refine ⟨fun u j rest => rfl, ?_, ?_, ?_, fun rest => rfl⟩
  · intro rest
    simp [cache_writer_run]
  · intro xs rest hlen
    match xs with
    | [] => rfl
    | [_] => rfl
    | [_, _] => exact absurd rfl hlen
    | _ :: _ :: _ :: _ => rfl
  · intro t rest ht
    have ht2 : ¬ t = "kill".toList := ht
    simp only [cache_writer_run]
    rw [if_neg ht2]

/-- C7 witness: a zero-element list message is fatal, and a string
message different from `kill` is skipped, leaving the writer waiting. -/
theorem c7_writer_messages_amended_witness :
    cache_writer_run "20180101".toList (initState [] [] false false)
        [MpMsg.pylist []] = (initState [] [] false false, WriterExit.fatal)
    ∧ cache_writer_run "20180101".toList (initState [] [] false false)
        [MpMsg.pystr "stop".toList]
      = (initState [] [] false false, WriterExit.pending) := by
  have h := c7_writer_messages_amended (initState [] [] false false) "20180101".toList
  refine ⟨h.2.2.1 [] [] (by decide), ?_⟩
  rw [h.2.2.2.1 "stop".toList [] (by decide)]
  rfl

/-- C8 counterexample: the Python function `write_cache_entry` has no
`return` statement: at a concrete state where the appended record
begins at offset 0, the call's return value is `None`, not the byte
offset at which the record began — refuting "returns the byte offset
at which the record began". -/
theorem c8_counterexample :
    (write_cache_entry (initState [] [] false false)
        "u".toList "J".toList "20180101".toList).2 = none
    ∧ (write_cache_entry (initState [] [] false false)
        "u".toList "J".toList "20180101".toList).2
      ≠ some (initState [] [] false false).file.length := by
  exact ⟨rfl, by decide⟩

/-- C8 (amended): provided the handle's EOF flag is honest (when it is
set the cursor is at end of file — the invariant the source maintains),
`write_cache_entry` appends the three lines `key\n date\n payload\n`
at the end-of-file position (seeking to EOF first when the cursor is
elsewhere), records the byte offset at which the record began in the
writer's own index entry for the key — overwriting any prior entry
(last-write-wins within the process's index) — and leaves the cursor
at the new end of file; the offset is recorded in the index, not
returned (the Python function returns `None`). -/
theorem c8_append_amended (s : RxnavState) (u j dt : List Char)
    (hinv : s.at_eof = true → s.cursor = s.file.length) :
    (write_cache_entry s u j dt).1.file = s.file ++ mkRecord u dt j
    ∧ dictGet (write_cache_entry s u j dt).1.rxnav_cache u = some (s.file.length, dt)
    ∧ (write_cache_entry s u j dt).1.cursor = (write_cache_entry s u j dt).1.file.length
    ∧ (write_cache_entry s u j dt).1.at_eof = true
    ∧ (write_cache_entry s u j dt).2 = none := by
  have hpos : (if s.at_eof then s.cursor else s.file.length) = s.file.length := by
    by_cases h : s.at_eof = true
    · rw [if_pos h, hinv h]
    · rw [if_neg (by simpa using h)]
  unfold write_cache_entry
  refine ⟨rfl, ?_, rfl, rfl, rfl⟩
  simp only [hpos]
  exact dictGet_insert_self _ u _

/-- C8 witness: appending to a concrete one-record file places the new
record after the old contents and indexes the key at offset 15. -/
theorem c8_append_amended_witness :
    (write_cache_entry (initState "u\n20180101\nPAY\n".toList [] false false)
        "k".toList "J".toList "20180102".toList).1.file
      = "u\n20180101\nPAY\n".toList ++ mkRecord "k".toList "20180102".toList "J".toList
    ∧ dictGet (write_cache_entry (initState "u\n20180101\nPAY\n".toList [] false false)
        "k".toList "J".toList "20180102".toList).1.rxnav_cache "k".toList
      = some ("u\n20180101\nPAY\n".toList.length, "20180102".toList) := by
  have h := c8_append_amended (initState "u\n20180101\nPAY\n".toList [] false false)
    "k".toList "J".toList "20180102".toList (fun _ => rfl)
  exact ⟨h.1, h.2.1⟩

/-- C10 (confirmed): `write_cache_entry` modifies only the index entry
of the appended key — every other key's `(offset, retrievalDate)`
entry is unchanged — and every byte of the cache file before the
previous end of file is unchanged: the file only grows at the end. -/
theorem c10_frame (s : RxnavState) (u j dt k2 : List Char) (hne : k2 ≠ u) :
    dictGet (write_cache_entry s u j dt).1.rxnav_cache k2 = dictGet s.rxnav_cache k2
    ∧ (write_cache_entry s u j dt).1.file.take s.file.length = s.file
    ∧ s.file.length ≤ (write_cache_entry s u j dt).1.file.length := by
  unfold write_cache_entry
  refine ⟨dictGet_insert_ne _ u k2 _ hne, List.take_left _ _, ?_⟩
  simp [List.length_append]

/-- C10 witness: after appending key `k`, the other key `u` still maps
to its old entry and the old file contents are a prefix of the new. -/
theorem c10_frame_witness :
    dictGet (write_cache_entry (initState "u\n20180101\nPAY\n".toList
        [("u".toList, (0, "20180101".toList))] false false)
        "k".toList "J".toList "20180102".toList).1.rxnav_cache "u".toList
      = some (0, "20180101".toList)
    ∧ (write_cache_entry (initState "u\n20180101\nPAY\n".toList
        [("u".toList, (0, "20180101".toList))] false false)
        "k".toList "J".toList "20180102".toList).1.file.take
        "u\n20180101\nPAY\n".toList.length
      = "u\n20180101\nPAY\n".toList := by
  have h := c10_frame (initState "u\n20180101\nPAY\n".toList
      [("u".toList, (0, "20180101".toList))] false false)
      "k".toList "J".toList "20180102".toList "u".toList (by decide)
  exact ⟨h.1, h.2.1⟩

/-- C9 (confirmed): both worker tasks applied to the empty segment fail
immediately with the `IndexError` raised by `seg[0]`/`seg[-1]` in the
opening log line — before the cache snapshot is loaded and before the
barrier is reached — so a non-empty segment is a precondition of every
worker, even though the orchestrator's slicing yields an empty final
segment whenever the worker count exceeds the number of work items. -/
theorem c9_empty_segment :
    (∀ (cacheFile : List Char) (net : List Char → Nat → Option (List Char)),
      worker_task_rxcuis cacheFile net []
        = ⟨false, false, Except.error WorkerErr.indexErrorEmptySegment⟩)
    ∧ (∀ (cacheFile : List Char) (net : List Char → Nat → Option (List Char)),
      worker_task_ndcs cacheFile net []
        = ⟨false, false, Except.error WorkerErr.indexErrorEmptySegment⟩)
    ∧ (∀ (l : List Nat) (wc : Nat), 1 ≤ wc → l.length < wc →
        (segments l wc).getD (wc - 1) [] = []) := by
  refine ⟨fun _ _ => rfl, fun _ _ => rfl, ?_⟩
  intro l wc hwc hlen
  have hio : wc - 1 < wc := by omega
  rw [segments_get l wc (wc - 1) hio]
  by_cases hn : l.length = 0
  · have hl : l = [] := List.eq_nil_of_length_eq_zero hn
    subst hl
    simp
  · have hc1 : segsize l.length wc = 1 := by
      unfold segsize
      have h1 : 1 * wc ≤ l.length + wc - 1 := by omega
      have h2 : l.length + wc - 1 < (1 + 1) * wc := by omega
      exact Nat.div_eq_of_lt_le h1 h2
    rw [hc1]
    have hdrop : l.drop (1 * (wc - 1)) = [] := by
      apply List.drop_eq_nil_of_le
      omega
    rw [hdrop]
    rfl

/-- C9 witness: a concrete empty-segment worker fails before snapshot
and barrier, and `n = 1 < workerCount = 2` yields an empty last
segment. -/
theorem c9_empty_segment_witness :
    worker_task_rxcuis [] (fun _ _ => none) []
      = ⟨false, false, Except.error WorkerErr.indexErrorEmptySegment⟩
    ∧ (segments [1] 2).getD 1 [] = [] :=
  ⟨c9_empty_segment.1 [] (fun _ _ => none),
   c9_empty_segment.2.2 [1] 2 (by decide) (by decide)⟩

theorem loadRecs_append_single :
    ∀ (rs : List (List Char × List Char × List Char)) (k dt p : List Char)
      (pos : Nat) (d : CacheDict),
    loadRecs (rs ++ [(k, dt, p)]) pos d
      = dictInsert (loadRecs rs pos d) k (pos + (joinRecords rs).length, dt)
  | [], k, dt, p, pos, d => by simp [loadRecs, joinRecords]
  | (k0, d0, p0) :: rs, k, dt, p, pos, d => by
      show loadRecs (rs ++ [(k, dt, p)]) (pos + (mkRecord k0 d0 p0).length)
          (dictInsert d k0 (pos, d0)) = _
      rw [loadRecs_append_single rs k dt p _ _]
      have hlen : pos + (mkRecord k0 d0 p0).length + (joinRecords rs).length
          = pos + (joinRecords ((k0, d0, p0) :: rs)).length := by
        show _ = pos + (mkRecord k0 d0 p0 ++ joinRecords rs).length
        rw [List.length_append]
        omega
      rw [hlen]
      rfl

/-- C2 (amended): for every key, date and payload that are single-line
texts — containing no newline and no carriage return, since universal
newlines make a lone `\r` a line break on reading — with the date 8
characters long, appending the record with `write_cache_entry` to any
well-formed record file, reloading the index from the file in a fresh
worker process (`load_existing_cache` via the constructor), and
looking the key up through the cache-hit path of `get_rxnav_data`
returns exactly the appended payload, with zero remote attempts. -/
theorem c2_round_trip_amended
    (rs : List (List Char × List Char × List Char))
    (k dt p : List Char) (w : RxnavState)
    (net : Nat → Option (List Char))
    (hk : lineOk k) (hdt : lineOk dt) (hdt8 : dt.length = 8) (hp : lineOk p)
    (hrs : ∀ r ∈ rs, recOk r) (hwfile : w.file = joinRecords rs) :
    rxnav_init (write_cache_entry w k p dt).1.file true true false
      = some (initState (write_cache_entry w k p dt).1.file
          (loadRecs (rs ++ [(k, dt, p)]) 0 []) false true)
    ∧ (get_rxnav_data (initState (write_cache_entry w k p dt).1.file
          (loadRecs (rs ++ [(k, dt, p)]) 0 []) false true) net k).1
      = FetchResult.hit p
    ∧ (get_rxnav_data (initState (write_cache_entry w k p dt).1.file
          (loadRecs (rs ++ [(k, dt, p)]) 0 []) false true) net k).2.2 = 0 := by
  have hfile : (write_cache_entry w k p dt).1.file = joinRecords (rs ++ [(k, dt, p)]) := by
    show w.file ++ mkRecord k dt p = _
    rw [joinRecords_append, hwfile]
    simp [joinRecords]
  have hrs2 : ∀ r ∈ rs ++ [(k, dt, p)], recOk r := by
    intro r hr
    rcases List.mem_append.mp hr with h | h
    · exact hrs r h
    · have heq : r = (k, dt, p) := by simpa using h
      subst heq
      exact ⟨hk, ⟨hdt, hdt8⟩, hp⟩
  have hload : load_existing_cache (write_cache_entry w k p dt).1.file
      = some (loadRecs (rs ++ [(k, dt, p)]) 0 []) := by
    rw [hfile]
    exact load_records _ hrs2
  have hget : dictGet (loadRecs (rs ++ [(k, dt, p)]) 0 []) k
      = some ((joinRecords rs).length, dt) := by
    rw [loadRecs_append_single rs k dt p 0 []]
    have := dictGet_insert_self (loadRecs rs 0 []) k ((0 + (joinRecords rs).length, dt))
    simpa using this
  have hpay : payloadAtOffset (write_cache_entry w k p dt).1.file
      (joinRecords rs).length = p := by
    rw [hfile, joinRecords_append]
    unfold payloadAtOffset
    rw [List.drop_left]
    have hone : joinRecords [(k, dt, p)] = mkRecord k dt p := by
      simp [joinRecords]
    rw [hone]
    have h1 : pyReadLine (mkRecord k dt p)
        = (k ++ ['\n'], dt ++ '\n' :: (p ++ ['\n'])) :=
      pyReadLine_newline k _ hk.1 hk.2
    rw [h1]
    have h2 : pyReadLine (dt ++ '\n' :: (p ++ ['\n'])) = (dt ++ ['\n'], p ++ ['\n']) :=
      pyReadLine_newline dt _ hdt.1 hdt.2
    rw [h2]
    have h3 : pyReadLine (p ++ ['\n']) = (p ++ ['\n'], []) := by
      have := pyReadLine_newline p [] hp.1 hp.2
      simpa using this
    rw [h3]
    exact chomp_single_line p hp
  have hh := get_rxnav_data_hit (initState (write_cache_entry w k p dt).1.file
      (loadRecs (rs ++ [(k, dt, p)]) 0 []) false true) net k
      ((joinRecords rs).length) dt rfl hget
  refine ⟨?_, ?_, ?_⟩
  · unfold rxnav_init
    rw [hload]
    rfl
  · rw [hh]
    show FetchResult.hit (payloadAtOffset (write_cache_entry w k p dt).1.file
      (joinRecords rs).length) = _
    rw [hpay]
  · rw [hh]

/-- C2 counterexample: the round trip fails for an unrestricted
payload.  With `payload = "a\nb"` (an embedded newline) the appended
entry spans four lines; the same happens with `payload = "a\rb"` (an
embedded carriage return), because universal-newlines reading splits
the line at the `\r`.  Either way the reload step of the round trip —
the fresh process's `load_existing_cache` — raises the format error
instead of producing an index, and no lookup can return the payload:
"for all (key, date, payload)" is refuted. -/
theorem c2_counterexample :
    rxnav_init (write_cache_entry (initState [] [] false false)
        "k".toList "a\nb".toList "20180101".toList).1.file true true false = none
    ∧ rxnav_init (write_cache_entry (initState [] [] false false)
        "k".toList "a\rb".toList "20180101".toList).1.file true true false = none := by
  exact ⟨by decide, by decide⟩

/-- C2 witness: a concrete single-line record appended to the empty
cache file reloads in a fresh process and the cache-hit lookup returns
exactly the appended payload with zero remote attempts. -/
theorem c2_round_trip_amended_witness :
    rxnav_init (write_cache_entry (initState [] [] false false)
        "k".toList "PAY".toList "20180101".toList).1.file true true false
      = some (initState (write_cache_entry (initState [] [] false false)
          "k".toList "PAY".toList "20180101".toList).1.file
          (loadRecs [("k".toList, "20180101".toList, "PAY".toList)] 0 []) false true)
    ∧ (get_rxnav_data (initState (write_cache_entry (initState [] [] false false)
          "k".toList "PAY".toList "20180101".toList).1.file
          (loadRecs [("k".toList, "20180101".toList, "PAY".toList)] 0 []) false true)
        (fun _ => none) "k".toList).1
      = FetchResult.hit "PAY".toList
    ∧ (get_rxnav_data (initState (write_cache_entry (initState [] [] false false)
          "k".toList "PAY".toList "20180101".toList).1.file
          (loadRecs [("k".toList, "20180101".toList, "PAY".toList)] 0 []) false true)
        (fun _ => none) "k".toList).2.2 = 0 :=
  c2_round_trip_amended [] "k".toList "20180101".toList "PAY".toList
    (initState [] [] false false) (fun _ => none)
    (by decide) (by decide) (by decide) (by decide)
    (by intro r hr; simp at hr) rfl
